import Mathlib

/-!
Verification of the Triton distributed code generator (legacy `triton::codegen::generator`,
LLVM lowering) against its natural-language specification.

Shallow embedding conventions:
* LLVM `i32` index expressions appearing in materialized index tuples are modelled by an
  abstract coordinate type `α` with a distinguished element standing for `i32(0)`;
  concrete witnesses instantiate `α := Nat`.
* Machine integers are modelled as `Nat`/`Int`; two's-complement narrowing is explicit.
* Fallible lowering paths (`throw std::runtime_error(...)`) are modelled as
  `Except String _` carrying the exact message thrown by the source.
* Run-time semantics of emitted PTX fragments (the `fp8 -> fp16` bit sequence, the
  predicated-load words) are modelled bit-level on `Nat`, directly from the inline
  assembly text the generator emits.
-/

namespace TritonGen

/-! ## Index Materializer (`generator::init_idx`) -/

/-- Per-dimension distributed axis state (`codegen::distributed_axis`): the
contiguous run length and the ordered per-lane coordinate list for that axis. -/
structure distributed_axis (α : Type) where
  contiguous : Nat
  values : List α

/-- The inputs of `generator::init_idx` for one `ir::value`, as supplied by the
type system and the external analyses:
* `is_block`: `v->get_type()->is_block_ty()`;
* `is_shared`: `layouts_->get(v)->to_shared() != nullptr`;
* `shapes`: `v->get_type()->get_block_shapes()`;
* `axes_ext d`: `axes_.at(a_axes_->get(v, d))`, the external per-axis state;
* `order_key d`: the composite `layout->get_order(layout->find_axis(a_axes_->get(v, d)))`
  when `find_axis` returns a position `< rank`, and `none` otherwise — exactly the
  data the comparator in `init_idx` consults. -/
structure ValueDesc (α : Type) where
  is_block : Bool
  is_shared : Bool
  shapes : List Nat
  axes_ext : Nat → distributed_axis α
  order_key : Nat → Option Nat

/-- The comparator passed to `std::sort` in `init_idx`: dimensions compare by their
layout-order position when both positions are valid, and are unordered otherwise. -/
def idx_cmp {α : Type} (v : ValueDesc α) (x y : Nat) : Bool :=
  match v.order_key x, v.order_key y with
  | some a, some b => decide (a < b)
  | _, _ => false

/-- Insert an element into a list sorted by the strict comparator `lt`. -/
def insert_by (lt : Nat → Nat → Bool) (x : Nat) : List Nat → List Nat
  | [] => [x]
  | y :: ys => if lt x y then x :: y :: ys else y :: insert_by lt x ys

/-- Insertion sort by the strict comparator `lt`, modelling `std::sort(ord, cmp)`
(any comparison sort consistent with `cmp`; only the induced permutation matters). -/
def sort_by (lt : Nat → Nat → Bool) : List Nat → List Nat
  | [] => []
  | x :: xs => insert_by lt x (sort_by lt xs)

/-- The sorted dimension order `ord` computed by `init_idx`:
`iota(ord); sort(ord, cmp)`. -/
def idx_ord {α : Type} (v : ValueDesc α) : List Nat :=
  sort_by (idx_cmp v) (List.range v.shapes.length)

/-- The per-dimension coordinate list computed by `init_idx` (`axes[d].values`):
the external axis values when `shapes[d] > 1`, and the single constant `i32(0)`
(modelled by `zero`) otherwise. -/
def idx_axes {α : Type} (zero : α) (v : ValueDesc α) (d : Nat) : List α :=
  if 1 < v.shapes.getD d 0 then (v.axes_ext d).values else [zero]

/-- Model of `generator::init_idx`: materializes the ordered list of per-lane index tuples of a
value. Non-block values get the single empty tuple; shared-layout values get the empty
list; distributed values of rank 1, 2, 3 get the dimension-order-aware Cartesian
product, the tuple slot for dimension `ord[i]` receiving that dimension's coordinate
(the default-initialized `indices_t idx(rank)` is modelled by `List.replicate`, every
slot of which is overwritten because `ord` is a permutation of the dimensions). -/
def init_idx {α : Type} (zero : α) (v : ValueDesc α) : List (List α) :=
  if !v.is_block then [[]]
  else if v.is_shared then []
  else
    let axes := idx_axes zero v
    match idx_ord v with
    | [o0] =>
      (axes o0).map (fun x0 => [x0])
    | [o0, o1] =>
      (axes o1).flatMap (fun x1 =>
        (axes o0).map (fun x0 =>
          ((List.replicate 2 zero).set o0 x0).set o1 x1))
    | [o0, o1, o2] =>
      (axes o2).flatMap (fun x2 =>
        (axes o1).flatMap (fun x1 =>
          (axes o0).map (fun x0 =>
            (((List.replicate 3 zero).set o0 x0).set o1 x1).set o2 x2)))
    | _ => []

/-! ## Shared-Buffer Lifecycle Manager (`generator::finalize_shared_layout`) -/

/-- The N-stage buffer index advance inserted at the loop latch:
`next = (idx == stages-1) ? 0 : idx+1`. -/
def n_stage_next (stages idx : Nat) : Nat :=
  if idx = stages - 1 then 0 else idx + 1

/-- Seed of the read stage index phi (`finalize_smem_idx(read_smem_idx_, 2)`). -/
def read_smem_init : Nat := 2

/-- Seed of the write stage index phi
(`finalize_smem_idx(write_smem_idx_, shared->get_num_stages()-1)`). -/
def write_smem_init (stages : Nat) : Nat := stages - 1

/-- The double-buffer offset phi's non-latch incoming value:
`i32(shared->get_size() / (2*num_bytes))`, the per-slot stride in elements. -/
def double_buffer_first_offset (size num_bytes : Nat) : Int :=
  ((size / (2 * num_bytes) : Nat) : Int)

/-- The value of the double-buffer offset phi after `k` loop iterations: seeded with
the per-slot stride on the non-latch edge and negated (`neg(offset)`) on every pass
through the latch. -/
def double_buffer_offset (size num_bytes : Nat) : Nat → Int
  | 0 => double_buffer_first_offset size num_bytes
  | k + 1 => - double_buffer_offset size num_bytes k

/-! ## Narrow-format conversions (`fp32x4_to_fp8x4`, `fp8x4_to_fp16x4`,
`fp8x4_to_fp32x4`, `visit_cast_inst` fp8 branch) -/

/-- Scalar types relevant to the fp8 branch of `visit_cast_inst`. -/
inductive ScaTy where
  | fp8
  | fp16
  | fp32
  | other
deriving DecidableEq

/-- An LLVM value at lowering time: a floating-point constant (`ConstantFP`, modelled
by its rational value — `convertToFloat() == 0` holds exactly for the model value 0),
an integer constant (`ConstantInt`, by its signed value), or any other (symbolic)
value, identified by a tag. -/
inductive LVal where
  | constFP (q : Rat)
  | constInt (z : Int)
  | sym (id : Nat)
deriving DecidableEq

/-- A result value of the fp8 cast branch: an `i8` constant byte, or one of the four
extracted outputs of the emitted `prmt`/`lop3`/`shr` inline-asm call. -/
inductive CVal where
  | byte (n : Nat)
  | asm_out (k : Nat) (a b c d : LVal)
deriving DecidableEq

/-- The per-element lambda inside `generator::fp32x4_to_fp8x4`: accepts only a
`ConstantFP` equal to zero, returning `getInt8(0)`; anything else throws
`"unsupported cast"`. -/
def fp32_to_fp8_elt (v : LVal) : Except String CVal :=
  match v with
  | .constFP q => if q = 0 then .ok (.byte 0) else .error "unsupported cast"
  | _ => .error "unsupported cast"

/-- Model of `generator::fp32x4_to_fp8x4`: converts a group of 4 fp32 values to 4 fp8 bytes;
any element failing the constant-zero test aborts the whole group with
`"unsupported cast"`. -/
def fp32x4_to_fp8x4 (in0 in1 in2 in3 : LVal) :
    Except String (CVal × CVal × CVal × CVal) :=
  match fp32_to_fp8_elt in0, fp32_to_fp8_elt in1,
        fp32_to_fp8_elt in2, fp32_to_fp8_elt in3 with
  | .ok r0, .ok r1, .ok r2, .ok r3 => .ok (r0, r1, r2, r3)
  | _, _, _, _ => .error "unsupported cast"

/-- Model of `generator::fp8x4_to_fp16x4` at the structural level: packs the 4 input bytes,
calls the synthesized inline-asm fragment, and extracts its 4 half-precision
results (it never throws). -/
def fp8x4_to_fp16x4 (in0 in1 in2 in3 : LVal) : CVal × CVal × CVal × CVal :=
  (.asm_out 0 in0 in1 in2 in3, .asm_out 1 in0 in1 in2 in3,
   .asm_out 2 in0 in1 in2 in3, .asm_out 3 in0 in1 in2 in3)

/-- The `cvt` lambda of the fp8 branch of `generator::visit_cast_inst`: only the
pairs fp32→fp8 and fp8→fp16 have a rule; every other type pair throws
`"unsupported conversion"`. -/
def cast_cvt_group (op_sca_ty ret_sca_ty : ScaTy) (a b c d : LVal) :
    Except String (CVal × CVal × CVal × CVal) :=
  if op_sca_ty = .fp32 ∧ ret_sca_ty = .fp8 then
    fp32x4_to_fp8x4 a b c d
  else if op_sca_ty = .fp8 ∧ ret_sca_ty = .fp16 then
    .ok (fp8x4_to_fp16x4 a b c d)
  else
    .error "unsupported conversion"

/-- The conversion loop of the fp8 branch (`for(i = 0; i < x_idxs.size(); i += 4)`):
processes consecutive groups of 4 materialized operand values. An input whose length
is not a multiple of 4 would read past the end of the index vector in the source;
that out-of-range access is modelled as the distinguished error
`"index out of bounds"`. -/
def cast_groups (op_sca_ty ret_sca_ty : ScaTy) : List LVal → Except String (List CVal)
  | [] => .ok []
  | a :: b :: c :: d :: rest =>
    match cast_cvt_group op_sca_ty ret_sca_ty a b c d with
    | .error e => .error e
    | .ok (r0, r1, r2, r3) =>
      match cast_groups op_sca_ty ret_sca_ty rest with
      | .error e => .error e
      | .ok rs => .ok (r0 :: r1 :: r2 :: r3 :: rs)
  | _ => .error "index out of bounds"

/-- The fp8 branch of `generator::visit_cast_inst`: first checks that the output
layout's innermost contiguous run length (`layouts_->get(x)->to_scanline()->nts(ld)`)
is a multiple of 4, throwing `"unsupported fp32 -> fp8 conversion"` otherwise, then
runs the groupwise conversion over the materialized operand values. -/
def visit_cast_fp8 (op_sca_ty ret_sca_ty : ScaTy) (contiguous : Nat)
    (op_vals : List LVal) : Except String (List CVal) :=
  if contiguous % 4 ≠ 0 then .error "unsupported fp32 -> fp8 conversion"
  else cast_groups op_sca_ty ret_sca_ty op_vals

/-! ## Run-time semantics of the emitted fp8→fp16 PTX fragment -/

/-- Byte `i` of a 32-bit word. -/
def getByte (x i : Nat) : Nat := x / 2 ^ (8 * i) % 2 ^ 8

/-- PTX `prmt.b32 d, a, b, ctl`: byte `j` of the result selects, per the `j`-th
control nibble, a byte of the 64-bit concatenation `{b, a}`; a nibble with bit 3 set
replicates that byte's sign bit. -/
def prmt (a b ctl : Nat) : Nat :=
  (List.range 4).foldl (fun acc j =>
    let sel := ctl / 2 ^ (4 * j) % 16
    let byte := if sel % 8 < 4 then getByte a (sel % 8) else getByte b (sel % 8 - 4)
    let byte := if 8 ≤ sel then byte / 128 * 255 else byte
    acc + byte * 2 ^ (8 * j)) 0

/-- PTX `lop3.b32 d, a, b, c, lut`: each result bit applies the 3-input lookup table
`lut` to the corresponding bits of `a`, `b`, `c`. -/
def lop3 (a b c lut : Nat) : Nat :=
  (List.range 32).foldl (fun acc i =>
    let idx := 4 * (a / 2 ^ i % 2) + 2 * (b / 2 ^ i % 2) + (c / 2 ^ i % 2)
    acc + lut / 2 ^ idx % 2 * 2 ^ i) 0

/-- Run-time semantics of the inline PTX emitted by `generator::fp8x4_to_fp16x4`:
the `prmt`-spread, sign-strip (`lop3 ... 0x7fff7fff ... 0xc0`), shift
(`shr.b32 ..., 1`), sign-restore (`lop3 ... 0x80008000 ... 0xf8`) sequence on the
packed group of 4 fp8 bytes, returning the 4 fp16 bit patterns in element order. -/
def ptx_fp8x4_to_fp16x4 (in0 in1 in2 in3 : Nat) : Nat × Nat × Nat × Nat :=
  let inw := in0 % 2 ^ 8 + in1 % 2 ^ 8 * 2 ^ 8 + in2 % 2 ^ 8 * 2 ^ 16 + in3 % 2 ^ 8 * 2 ^ 24
  let a0 := prmt 0 inw 0x5140
  let a1 := prmt 0 inw 0x7362
  let b0 := lop3 a0 0x7fff7fff 0 0xc0
  let b1 := lop3 a1 0x7fff7fff 0 0xc0
  let b0 := b0 / 2
  let b1 := b1 / 2
  let r0 := lop3 b0 0x80008000 a0 0xf8
  let r1 := lop3 b1 0x80008000 a1 0xf8
  (r0 % 2 ^ 16, r0 / 2 ^ 16, r1 % 2 ^ 16, r1 / 2 ^ 16)

/-- IEEE-754 widening of a binary16 bit pattern to a binary32 bit pattern, the
run-time semantics of the `FPExt` instructions emitted by
`generator::fp8x4_to_fp32x4` (zeros map to zeros, subnormals are renormalized,
infinities and NaNs map to their binary32 counterparts). -/
def fpext_f16_f32 (h : Nat) : Nat :=
  let s := h / 2 ^ 15 % 2
  let e := h / 2 ^ 10 % 2 ^ 5
  let m := h % 2 ^ 10
  if e = 0 then
    if m = 0 then s * 2 ^ 31
    else
      let k := Nat.log2 m
      s * 2 ^ 31 + (k + 103) * 2 ^ 23 + (m - 2 ^ k) * 2 ^ (23 - k)
  else if e = 31 then s * 2 ^ 31 + 255 * 2 ^ 23 + m * 2 ^ 13
  else s * 2 ^ 31 + (e + 112) * 2 ^ 23 + m * 2 ^ 13

/-- Run-time semantics of `generator::fp8x4_to_fp32x4`: the fp8→fp16 PTX sequence
followed by `FPExt` of each of the 4 results to binary32. -/
def ptx_fp8x4_to_fp32x4 (in0 in1 in2 in3 : Nat) : Nat × Nat × Nat × Nat :=
  match ptx_fp8x4_to_fp16x4 in0 in1 in2 in3 with
  | (h0, h1, h2, h3) => (fpext_f16_f32 h0, fpext_f16_f32 h1, fpext_f16_f32 h2, fpext_f16_f32 h3)

/-! ## Memory Access Codegen (`generator::visit_load_inst`) -/

/-- The vector width chosen by `visit_load_inst`: 1 by default; for a block-typed
pointer operand whose layout is a scanline layout, `min(layout->nts(ord[0]),
alignment_->get(op, ord[0]))`; for a block operand with a non-scanline layout the
default 1 is kept. -/
def load_vec (is_block : Bool) (scanline_nts : Option Nat) (aln : Nat) : Nat :=
  if is_block then
    match scanline_nts with
    | some nts => min nts aln
    | none => 1
  else 1

/-- The per-word width chosen by `visit_load_inst`:
`width = min(tot_width, max_word_width)` with `max_word_width = max(32, nbits)` and
`tot_width = nbits * vec`. -/
def load_word_width (nbits vec : Nat) : Nat :=
  min (nbits * vec) (max 32 nbits)

/-- The number of words emitted per access by `visit_load_inst`:
`n_words = max(1, tot_width / width)`. -/
def load_n_words (nbits vec : Nat) : Nat :=
  max 1 (nbits * vec / load_word_width nbits vec)

/-- The decision `visit_load_inst` takes for one fallback (`other`) word value
`v` (the bitcast of the packed per-element false values): either an immediate
printed into the asm text, or an extra instruction operand pushed onto `others`. -/
structure OtherEmit where
  imm : Option Int
  extra_operand : Option LVal
deriving DecidableEq

/-- The fallback-word emission logic of `visit_load_inst`
(`if(ConstantInt* cst = dyn_cast<ConstantInt>(v)) asm << hex(cst->getSExtValue());
else { asm << operand; others.push_back(v); }`): any compile-time integer constant
is folded into the `@!$pred mov` immediate; every other value becomes an extra
operand of the inline-asm call. -/
def emit_other_word (v : LVal) : OtherEmit :=
  match v with
  | .constInt z => { imm := some z, extra_operand := none }
  | v => { imm := none, extra_operand := some v }

/-- Run-time semantics of one result word of the emitted load fragment
(`@$p ld.global ... ; @!$p mov ...`): the memory word where the predicate holds,
the fallback word where it does not. -/
def masked_load_word (pred : Bool) (mem_word other_word : Int) : Int :=
  if pred then mem_word else other_word

/-! ## Swizzled shared-memory offsets
(`generator::visit_copy_to_shared_inst` and `generator::visit_masked_load_async_inst`) -/

/-- The swizzled shared offset computed in `visit_copy_to_shared_inst`:
`phase = (idx[in_order[1]] / per_phase) % max_phase`;
`off_1 = idx[in_order[1]] * shapes[in_order[0]]`;
`off_0 = idx[in_order[0]] + key.second * out_vec`, divided by `min_vec`, its
vector-group index permuted as `((off_0 / s) xor phase) * s + off_0 % s`, scaled
back by `min_vec`; result `off_0 + off_1`. -/
def cts_swizzle_off (row col per_phase max_phase out_vec min_vec s shape0 k2 : Nat) : Nat :=
  let phase := (row / per_phase) % max_phase
  let off_1 := row * shape0
  let off_0 := col + k2 * out_vec
  let off_0 := off_0 / min_vec
  let off_0 := ((off_0 / s) ^^^ phase) * s + off_0 % s
  let off_0 := off_0 * min_vec
  off_0 + off_1

/-- The swizzled shared offset computed in `visit_masked_load_async_inst`, transcribed
from that function's own offset block (same inputs, same operation sequence). -/
def async_swizzle_off (row col per_phase max_phase out_vec min_vec s shape0 k2 : Nat) : Nat :=
  let phase := (row / per_phase) % max_phase
  let off_1 := row * shape0
  let off_0 := col + k2 * out_vec
  let off_0 := off_0 / min_vec
  let off_0 := ((off_0 / s) ^^^ phase) * s + off_0 % s
  let off_0 := off_0 * min_vec
  off_0 + off_1

/-! ## Reduction Codegen (`generator::visit_reduce_inst`, `visit_reduce1d_inst`) -/

/-- The reduction operators (`ir::reduce_inst::op_t`). -/
inductive ReduceOp where
  | ADD
  | SUB
  | MAX
  | MIN
  | FADD
  | FSUB
  | FMAX
  | FMIN
deriving DecidableEq

/-- A floating-point neutral constant emitted via `ConstantFP::get`. -/
inductive FpConst where
  | zero
  | neg_inf
  | pos_inf
deriving DecidableEq

/-- A neutral element value: an integer constant (`ConstantInt`) by its signed value,
or a floating constant (`ConstantFP`). -/
inductive NeutralVal where
  | int (z : Int)
  | fp (c : FpConst)
deriving DecidableEq

/-- Two's-complement narrowing/widening performed by `ConstantInt::get(ty, v)`:
the signed value of `v` sign-extended-or-truncated to bit width `w`. -/
def sext_trunc (v : Int) (w : Nat) : Int :=
  let m := v % ((2 ^ w : Nat) : Int)
  if m < ((2 ^ (w - 1) : Nat) : Int) then m else m - ((2 ^ w : Nat) : Int)

/-- The neutral element selected by `visit_reduce_inst` for element bit width `w`:
`ConstantInt::get(ty, 0)` for ADD/SUB, `ConstantInt::get(ty, INT32_MIN)` for MAX,
`ConstantInt::get(ty, INT32_MAX)` for MIN, `ConstantFP::get(ty, 0)` for FADD/FSUB,
`ConstantFP::get(ty, -INFINITY)` for FMAX, `ConstantFP::get(ty, INFINITY)` for FMIN. -/
def reduce_neutral (op : ReduceOp) (w : Nat) : NeutralVal :=
  match op with
  | .ADD => .int (sext_trunc 0 w)
  | .SUB => .int (sext_trunc 0 w)
  | .MAX => .int (sext_trunc (-(2 ^ 31)) w)
  | .MIN => .int (sext_trunc (2 ^ 31 - 1) w)
  | .FADD => .fp .zero
  | .FSUB => .fp .zero
  | .FMAX => .fp .neg_inf
  | .FMIN => .fp .pos_inf

/-- The per-lane private fold of `visit_reduce1d_inst`
(`acc = !acc ? val : do_acc(acc, val)` over the materialized elements in
materialization order). -/
def reduce1d_thread_fold {α : Type} (do_acc : α → α → α) (vals : List α) : Option α :=
  vals.foldl (fun acc v =>
    match acc with
    | none => some v
    | some a => some (do_acc a v)) none

/-! ## Helper lemmas -/

theorem insert_by_perm (lt : Nat → Nat → Bool) (x : Nat) :
    ∀ l : List Nat, (insert_by lt x l).Perm (x :: l) := by
  intro l
  induction l with
  | nil => simp [insert_by]
  | cons y ys ih =>
    simp only [insert_by]
    by_cases h : lt x y = true
    · simp [h]
    · simp only [h, if_false]
      exact (ih.cons y).trans (List.Perm.swap x y ys)

theorem sort_by_perm (lt : Nat → Nat → Bool) :
    ∀ l : List Nat, (sort_by lt l).Perm l := by
  intro l
  induction l with
  | nil => simp [sort_by]
  | cons x xs ih =>
    simp only [sort_by]
    exact (insert_by_perm lt x (sort_by lt xs)).trans (ih.cons x)

theorem idx_ord_perm {α : Type} (v : ValueDesc α) :
    (idx_ord v).Perm (List.range v.shapes.length) :=
  sort_by_perm _ _

theorem n_stage_next_lt (stages : Nat) (hs : 0 < stages) (idx : Nat) (h : idx < stages) :
    n_stage_next stages idx = (idx + 1) % stages := by
  unfold n_stage_next
  by_cases he : idx = stages - 1
  · subst he
    rw [if_pos rfl, Nat.sub_add_cancel hs, Nat.mod_self]
  · rw [if_neg he, Nat.mod_eq_of_lt]
    omega

theorem n_stage_iter (stages : Nat) (hs : 0 < stages) (idx : Nat) (h : idx < stages) :
    ∀ k : Nat, (n_stage_next stages)^[k] idx = (idx + k) % stages := by
  intro k
  induction k generalizing idx with
  | zero => simp [Nat.mod_eq_of_lt h]
  | succ k ih =>
    rw [Function.iterate_succ_apply, n_stage_next_lt stages hs idx h,
        ih ((idx + 1) % stages) (Nat.mod_lt _ hs), Nat.mod_add_mod]
    congr 1
    omega

theorem cast_cvt_group_no_contig_error (op_sca_ty ret_sca_ty : ScaTy) (a b c d : LVal) :
    cast_cvt_group op_sca_ty ret_sca_ty a b c d ≠
      Except.error "unsupported fp32 -> fp8 conversion" := by
  unfold cast_cvt_group fp32x4_to_fp8x4
  split
  · split <;> simp
  · split <;> simp

theorem cast_groups_no_contig_error (op_sca_ty ret_sca_ty : ScaTy) :
    ∀ (n : Nat) (l : List LVal), l.length ≤ n →
      cast_groups op_sca_ty ret_sca_ty l ≠
        Except.error "unsupported fp32 -> fp8 conversion" := by
  intro n
  induction n with
  | zero =>
    intro l hl
    have : l = [] := List.length_eq_zero.mp (Nat.le_zero.mp hl)
    subst this
    simp [cast_groups]
  | succ n ih =>
    intro l hl
    rcases l with _ | ⟨a, _ | ⟨b, _ | ⟨c, _ | ⟨d, rest⟩⟩⟩⟩
    · simp [cast_groups]
    · simp [cast_groups]
    · simp [cast_groups]
    · simp [cast_groups]
    · simp only [cast_groups]
      rcases hg : cast_cvt_group op_sca_ty ret_sca_ty a b c d with e | ⟨r0, r1, r2, r3⟩
      · have hne := cast_cvt_group_no_contig_error op_sca_ty ret_sca_ty a b c d
        rw [hg] at hne
        have he : e ≠ "unsupported fp32 -> fp8 conversion" := fun h => hne (by rw [h])
        simp [hg, he]
      · have hrest : rest.length ≤ n := by
          simp only [List.length_cons] at hl
          omega
        rcases hr : cast_groups op_sca_ty ret_sca_ty rest with e | rs
        · have hne := ih rest hrest
          rw [hr] at hne
          simp only [hg, hr]
          exact hne
        · simp [hg, hr]

theorem fp32_to_fp8_elt_cases (v : LVal) :
    (v = .constFP 0 ∧ fp32_to_fp8_elt v = .ok (.byte 0)) ∨
    (v ≠ .constFP 0 ∧ fp32_to_fp8_elt v = .error "unsupported cast") := by
  cases v with
  | constFP q =>
    by_cases hq : q = 0
    · subst hq
      left
      exact ⟨rfl, rfl⟩
    · right
      exact ⟨by simp [hq], by simp [fp32_to_fp8_elt, hq]⟩
  | constInt z =>
    right
    exact ⟨by simp, rfl⟩
  | sym i =>
    right
    exact ⟨by simp, rfl⟩

theorem length_flatMap_const {α γ : Type} (l : List α) (k : Nat) (g : α → List γ)
    (h : ∀ x, (g x).length = k) : (l.flatMap g).length = k * l.length := by
  induction l with
  | nil => simp
  | cons x xs ih =>
    simp only [List.flatMap_cons, List.length_append, h, ih, List.length_cons]
    ring

/-! ## Claim theorems -/

/-- C3: For every double-buffered shared buffer, the auxiliary signed offset phi is
seeded on the non-latch edge with the per-slot stride `size / (2*num_bytes)` and
negated on the latch edge, so after `k` loop iterations the live offset equals
`(-1)^k` times the initial per-slot stride. -/
theorem double_buffer_offset_parity (size num_bytes k : Nat) :
    double_buffer_offset size num_bytes k =
      (-1) ^ k * double_buffer_first_offset size num_bytes := by
  induction k with
  | zero => simp [double_buffer_offset]
  | succ k ih =>
    rw [double_buffer_offset, ih]
    ring

/-- C6: For a lowered load of a block value with a scanline layout, the chosen vector
width is `min(nts, aln)`, the per-word width is
`min(max(32, element bit width), element bit width * vector width)`, and the number of
emitted words is `max(1, total transferred bits / word width)`. -/
theorem load_vectorization (nts aln nbits : Nat) :
    load_vec true (some nts) aln = min nts aln ∧
    load_word_width nbits (load_vec true (some nts) aln) =
      min (max 32 nbits) (nbits * min nts aln) ∧
    load_n_words nbits (load_vec true (some nts) aln) =
      max 1 (nbits * min nts aln / min (max 32 nbits) (nbits * min nts aln)) := by
  refine ⟨rfl, ?_, ?_⟩
  · simp [load_vec, load_word_width, Nat.min_comm]
  · simp [load_vec, load_n_words, load_word_width, Nat.min_comm]

/-- C7 counterexample: the fallback word `ConstantInt 5` is not a compile-time-zero
constant, yet `visit_load_inst` folds it into the instruction's immediate field
(`imm = some 5`) and does not pass it as an extra instruction operand, contradicting
the claim that a non-zero-constant fallback is passed as an extra operand. -/
theorem emit_other_nonzero_const_folded :
    LVal.constInt 5 ≠ LVal.constInt 0 ∧
    emit_other_word (.constInt 5) = { imm := some 5, extra_operand := none } := by
  constructor
  · decide
  · rfl

/-- C7 amended: at positions where the predicate is false the fallback word is
substituted by the emitted predicated move; a fallback word that is a compile-time
integer constant — zero or not — is folded into the instruction's immediate field,
and every non-`ConstantInt` fallback word is passed as an extra instruction operand. -/
theorem emit_other_word_spec :
    (∀ z : Int, emit_other_word (.constInt z) = { imm := some z, extra_operand := none }) ∧
    (∀ q : Rat, emit_other_word (.constFP q) =
      { imm := none, extra_operand := some (.constFP q) }) ∧
    (∀ i : Nat, emit_other_word (.sym i) =
      { imm := none, extra_operand := some (.sym i) }) ∧
    (∀ mem_word other_word : Int,
      masked_load_word true mem_word other_word = mem_word ∧
      masked_load_word false mem_word other_word = other_word) := by
  refine ⟨fun z => rfl, fun q => rfl, fun i => rfl, fun m o => ⟨rfl, rfl⟩⟩

/-- C8: The swizzled shared-memory offset computed by the distributed-to-shared write
path (`visit_copy_to_shared_inst`) and the one computed by the asynchronous
masked-load path (`visit_masked_load_async_inst`) are the same function of their
inputs, and both equal the closed form
`(((group / s) xor ((row / per_phase) mod max_phase)) * s + group mod s) * min_vec
+ row * shape0` with `group = (col + k2 * out_vec) / min_vec`. -/
theorem swizzle_write_read_equal
    (row col per_phase max_phase out_vec min_vec s shape0 k2 : Nat) :
    cts_swizzle_off row col per_phase max_phase out_vec min_vec s shape0 k2 =
      async_swizzle_off row col per_phase max_phase out_vec min_vec s shape0 k2 ∧
    cts_swizzle_off row col per_phase max_phase out_vec min_vec s shape0 k2 =
      ((((col + k2 * out_vec) / min_vec / s) ^^^ ((row / per_phase) % max_phase)) * s +
        ((col + k2 * out_vec) / min_vec) % s) * min_vec + row * shape0 :=
  ⟨rfl, rfl⟩

/-- C2: Finalization seeds the read and write stage indices at 2 and `stages-1` and
advances each by `next = (idx == stages-1) ? 0 : idx+1` once per iteration; for an
N-stage buffer (`stages ≥ 3`), every index reachable from either seed lies in
`[0, stages-1]`, and the write index returns to `stages-1` after exactly `stages`
advances (and not before). -/
theorem n_stage_index_cycle (stages : Nat) (hs : 3 ≤ stages) :
    read_smem_init = 2 ∧
    write_smem_init stages = stages - 1 ∧
    (∀ idx, n_stage_next stages idx = if idx = stages - 1 then 0 else idx + 1) ∧
    (∀ k, (n_stage_next stages)^[k] read_smem_init ≤ stages - 1) ∧
    (∀ k, (n_stage_next stages)^[k] (write_smem_init stages) ≤ stages - 1) ∧
    (n_stage_next stages)^[stages] (write_smem_init stages) = write_smem_init stages ∧
    (∀ k, 0 < k → k < stages →
      (n_stage_next stages)^[k] (write_smem_init stages) ≠ write_smem_init stages) := by
  have h0 : 0 < stages := by omega
  have h2 : read_smem_init < stages := by unfold read_smem_init; omega
  have hw : write_smem_init stages < stages := by unfold write_smem_init; omega
  refine ⟨rfl, rfl, fun idx => rfl, ?_, ?_, ?_, ?_⟩
  · intro k
    rw [n_stage_iter stages h0 _ h2 k]
    have := Nat.mod_lt (read_smem_init + k) h0
    omega
  · intro k
    rw [n_stage_iter stages h0 _ hw k]
    have := Nat.mod_lt (write_smem_init stages + k) h0
    omega
  · rw [n_stage_iter stages h0 _ hw stages]
    unfold write_smem_init
    rw [Nat.add_mod_right, Nat.mod_eq_of_lt (by omega)]
  · intro k hk1 hk2
    rw [n_stage_iter stages h0 _ hw k]
    unfold write_smem_init
    rw [show stages - 1 + k = k - 1 + 1 * stages from by omega,
        Nat.add_mul_mod_self_right, Nat.mod_eq_of_lt (by omega)]
    omega

/-- C2 witness: the theorem instantiated at `stages = 4`, where the write index,
seeded at 3, returns to 3 after exactly 4 advances. -/
theorem n_stage_index_cycle_witness :
    3 ≤ 4 ∧ (n_stage_next 4)^[4] (write_smem_init 4) = write_smem_init 4 :=
  ⟨by decide, (n_stage_index_cycle 4 (by decide)).2.2.2.2.2.1⟩

/-- C4 counterexample: a cast whose source scalar type is fp8 and destination fp32,
lowered with innermost contiguous run length 4 — a multiple of 4 — still raises a
fatal unsupported-construct error (`"unsupported conversion"`), so the claimed
equivalence "error iff run length not a multiple of 4" fails. -/
theorem cast_fp8_error_not_iff :
    4 % 4 = 0 ∧
    visit_cast_fp8 .fp8 .fp32 4 [.sym 0, .sym 1, .sym 2, .sym 3] =
      .error "unsupported conversion" := by
  constructor
  · decide
  · rfl

/-- C4 amended: the fp8 cast branch raises the run-length unsupported-construct error
`"unsupported fp32 -> fp8 conversion"` iff the output layout's innermost contiguous
run length is not a multiple of 4; when the run length is a multiple of 4 the branch
proceeds over consecutive groups of 4 materialized indices (where the group conversion
may still reject an unsupported (source, destination) type pair or a non-constant
fp32 operand with a different unsupported-construct error). -/
theorem cast_fp8_contig_check (op_sca_ty ret_sca_ty : ScaTy) (contiguous : Nat)
    (op_vals : List LVal) :
    (visit_cast_fp8 op_sca_ty ret_sca_ty contiguous op_vals =
        .error "unsupported fp32 -> fp8 conversion" ↔ contiguous % 4 ≠ 0) ∧
    (contiguous % 4 = 0 →
      visit_cast_fp8 op_sca_ty ret_sca_ty contiguous op_vals =
        cast_groups op_sca_ty ret_sca_ty op_vals) := by
  constructor
  · constructor
    · intro h hc
      unfold visit_cast_fp8 at h
      rw [if_neg (by simp [hc])] at h
      exact cast_groups_no_contig_error op_sca_ty ret_sca_ty op_vals.length op_vals le_rfl h
    · intro hc
      unfold visit_cast_fp8
      rw [if_pos hc]
  · intro hc
    unfold visit_cast_fp8
    rw [if_neg (by simp [hc])]

/-- C4 witness: a run length of 3 is rejected with the run-length error. -/
theorem cast_fp8_contig_check_witness :
    visit_cast_fp8 .fp32 .fp8 3 [] = .error "unsupported fp32 -> fp8 conversion" :=
  (cast_fp8_contig_check .fp32 .fp8 3 []).1.mpr (by decide)

/-- C5: Converting a group of 4 constant-zero fp32 values to fp8 yields the four zero
bytes, and running the emitted sign-strip/shift/sign-restore fp8→fp16 bit sequence
followed by FPExt on those zero bytes yields a bit-exact zero at each of the 4
positions, both as fp16 and as fp32 bit patterns. -/
theorem fp8_round_trip_zero :
    fp32x4_to_fp8x4 (.constFP 0) (.constFP 0) (.constFP 0) (.constFP 0) =
      .ok (.byte 0, .byte 0, .byte 0, .byte 0) ∧
    ptx_fp8x4_to_fp16x4 0 0 0 0 = (0, 0, 0, 0) ∧
    ptx_fp8x4_to_fp32x4 0 0 0 0 = (0, 0, 0, 0) := by
  refine ⟨rfl, by decide, by decide⟩

/-- C9 counterexample: for a 64-bit integer MAX reduction the neutral element emitted
is `ConstantInt::get(ty, INT32_MIN)`, i.e. `-2^31`, not the minimum representable
64-bit value `-2^63`, so the claimed saturating-extreme selection fails off width 32. -/
theorem reduce_neutral_max_not_saturating :
    reduce_neutral .MAX 64 = .int (-(2 ^ 31)) ∧
    reduce_neutral .MAX 64 ≠ .int (-(2 ^ 63)) := by
  constructor <;> decide

theorem fold_step_some {α : Type} (f : α → α → α) :
    ∀ (vs : List α) (a : α),
      vs.foldl (fun acc v =>
        match acc with
        | none => some v
        | some x => some (f x v)) (some a) = some (vs.foldl f a) := by
  intro vs
  induction vs with
  | nil => intro a; rfl
  | cons v vs ih =>
    intro a
    simp only [List.foldl_cons]
    exact ih (f a v)

/-- C9 amended: the neutral element is 0 for ADD/SUB, floating 0 for FADD/FSUB,
-infinity for FMAX, +infinity for FMIN; for MAX/MIN it is `INT32_MIN`/`INT32_MAX`
sign-extended-or-truncated to the element bit width — the representable extreme
exactly at width 32; and each lane's private fold in `visit_reduce1d_inst` combines
its materialized elements left-to-right in materialization order, seeded at the
first element. -/
theorem reduce_neutral_and_fold_spec (w : Nat) :
    reduce_neutral .ADD w = .int 0 ∧
    reduce_neutral .SUB w = .int 0 ∧
    reduce_neutral .FADD w = .fp .zero ∧
    reduce_neutral .FSUB w = .fp .zero ∧
    reduce_neutral .FMAX w = .fp .neg_inf ∧
    reduce_neutral .FMIN w = .fp .pos_inf ∧
    reduce_neutral .MAX w = .int (sext_trunc (-(2 ^ 31)) w) ∧
    reduce_neutral .MIN w = .int (sext_trunc (2 ^ 31 - 1) w) ∧
    reduce_neutral .MAX 32 = .int (-(2 ^ 31)) ∧
    reduce_neutral .MIN 32 = .int (2 ^ 31 - 1) ∧
    (∀ (f : Int → Int → Int) (v : Int) (vs : List Int),
      reduce1d_thread_fold f (v :: vs) = some (vs.foldl f v)) := by
  have hpos : (0 : Int) < ((2 ^ (w - 1) : Nat) : Int) := by
    exact_mod_cast pow_pos (by norm_num : (0 : Nat) < 2) (w - 1)
  have hzero : sext_trunc 0 w = 0 := by
    unfold sext_trunc
    simp only [Int.zero_emod]
    rw [if_pos hpos]
  refine ⟨by simp [reduce_neutral, hzero], by simp [reduce_neutral, hzero],
    rfl, rfl, rfl, rfl, rfl, rfl, by decide, by decide, ?_⟩
  intro f v vs
  unfold reduce1d_thread_fold
  simp only [List.foldl_cons]
  exact fold_step_some f vs v

/-- C10: the packed fp32→fp8 conversion accepts only groups whose 4 operands are all
compile-time floating constants equal to zero: it succeeds, producing the four zero
bytes, iff all four inputs are constant zero, and otherwise throws
`"unsupported cast"`; hence no non-constant fp32 data is ever lowered to fp8. -/
theorem fp32_to_fp8_only_const_zero (a b c d : LVal) :
    (fp32x4_to_fp8x4 a b c d = .ok (.byte 0, .byte 0, .byte 0, .byte 0) ↔
      a = .constFP 0 ∧ b = .constFP 0 ∧ c = .constFP 0 ∧ d = .constFP 0) ∧
    (¬(a = .constFP 0 ∧ b = .constFP 0 ∧ c = .constFP 0 ∧ d = .constFP 0) →
      fp32x4_to_fp8x4 a b c d = .error "unsupported cast") := by
  rcases fp32_to_fp8_elt_cases a with ⟨ha, ha2⟩ | ⟨ha, ha2⟩ <;>
  rcases fp32_to_fp8_elt_cases b with ⟨hb, hb2⟩ | ⟨hb, hb2⟩ <;>
  rcases fp32_to_fp8_elt_cases c with ⟨hc, hc2⟩ | ⟨hc, hc2⟩ <;>
  rcases fp32_to_fp8_elt_cases d with ⟨hd, hd2⟩ | ⟨hd, hd2⟩ <;>
    (unfold fp32x4_to_fp8x4
     rw [ha2, hb2, hc2, hd2]
     simp [ha, hb, hc, hd])

/-- C10 witness: one non-constant operand in a group of 4 aborts the conversion. -/
theorem fp32_to_fp8_only_const_zero_witness :
    fp32x4_to_fp8x4 (.constFP 0) (.constFP 0) (.constFP 0) (.sym 7) =
      .error "unsupported cast" :=
  (fp32_to_fp8_only_const_zero (.constFP 0) (.constFP 0) (.constFP 0) (.sym 7)).2
    (by simp)

/-- C1: `init_idx` produces, for a non-block value, exactly the single empty index
tuple; for a block value with a shared layout, the empty list; and for a distributed
block value of rank 1, 2 or 3, the dimension-order-aware Cartesian product of the
per-dimension coordinate lists — in which every dimension of extent 1 contributes the
single constant coordinate 0 — so the number of tuples equals the product over
dimensions of the per-dimension coordinate-list lengths. -/
theorem init_idx_spec {α : Type} (zero : α) (v : ValueDesc α) :
    (v.is_block = false → init_idx zero v = [[]]) ∧
    (v.is_block = true → v.is_shared = true → init_idx zero v = []) ∧
    (v.is_block = true → v.is_shared = false →
      (v.shapes.length = 1 ∨ v.shapes.length = 2 ∨ v.shapes.length = 3) →
      (∀ d, v.shapes.getD d 0 ≤ 1 → idx_axes zero v d = [zero]) ∧
      (init_idx zero v).length =
        ((List.range v.shapes.length).map
          (fun d => (idx_axes zero v d).length)).prod) := by
  refine ⟨fun h => by simp [init_idx, h], fun hb hsh => by simp [init_idx, hb, hsh], ?_⟩
  intro hb hsh hr
  refine ⟨fun d hd => by unfold idx_axes; rw [if_neg (by omega)], ?_⟩
  have hperm := idx_ord_perm v
  have hlen : (idx_ord v).length = v.shapes.length := by
    simpa using hperm.length_eq
  rcases hr with h1 | h2 | h3
  · -- rank 1
    rcases ho : idx_ord v with _ | ⟨o0, _ | ⟨o1, tl⟩⟩
    · rw [ho] at hlen; rw [h1] at hlen; simp at hlen
    · have h00 : o0 = 0 := by
        rw [ho, h1] at hperm
        have hr1 : List.range 1 = [0] := rfl
        rw [hr1] at hperm
        have := List.perm_singleton.mp hperm
        simpa using this
      have hinit : init_idx zero v =
          (idx_axes zero v o0).map (fun x0 => [x0]) := by
        unfold init_idx
        rw [ho]
        simp [hb, hsh]
      rw [hinit, List.length_map, h1, h00]
      have hr1 : List.range 1 = [0] := rfl
      rw [hr1]
      simp
    · rw [ho] at hlen; rw [h1] at hlen; simp at hlen
  · -- rank 2
    rcases ho : idx_ord v with _ | ⟨o0, _ | ⟨o1, _ | ⟨o2, tl⟩⟩⟩
    · rw [ho] at hlen; rw [h2] at hlen; simp at hlen
    · rw [ho] at hlen; rw [h2] at hlen; simp at hlen
    · have hp : ([o0, o1].map (fun d => (idx_axes zero v d).length)).prod =
          ((List.range 2).map (fun d => (idx_axes zero v d).length)).prod := by
        rw [ho, h2] at hperm
        exact (hperm.map _).prod_eq
      have hinit : init_idx zero v =
          (idx_axes zero v o1).flatMap (fun x1 =>
            (idx_axes zero v o0).map (fun x0 =>
              ((List.replicate 2 zero).set o0 x0).set o1 x1)) := by
        unfold init_idx
        rw [ho]
        simp [hb, hsh]
      rw [hinit, length_flatMap_const _ (idx_axes zero v o0).length _
            (fun x1 => by simp)]
      rw [h2, ← hp]
      simp
    · rw [ho] at hlen; rw [h2] at hlen
      simp only [List.length_cons] at hlen
      omega
  · -- rank 3
    rcases ho : idx_ord v with _ | ⟨o0, _ | ⟨o1, _ | ⟨o2, tl⟩⟩⟩
    · rw [ho] at hlen; rw [h3] at hlen; simp at hlen
    · rw [ho] at hlen; rw [h3] at hlen; simp at hlen
    · rw [ho] at hlen; rw [h3] at hlen; simp at hlen
    · have htl : tl = [] := by
        rw [ho] at hlen; rw [h3] at hlen
        simp only [List.length_cons] at hlen
        exact List.length_eq_zero.mp (by omega)
      subst htl
      have hp : ([o0, o1, o2].map (fun d => (idx_axes zero v d).length)).prod =
          ((List.range 3).map (fun d => (idx_axes zero v d).length)).prod := by
        rw [ho, h3] at hperm
        exact (hperm.map _).prod_eq
      have hinit : init_idx zero v =
          (idx_axes zero v o2).flatMap (fun x2 =>
            (idx_axes zero v o1).flatMap (fun x1 =>
              (idx_axes zero v o0).map (fun x0 =>
                (((List.replicate 3 zero).set o0 x0).set o1 x1).set o2 x2))) := by
        unfold init_idx
        rw [ho]
        simp [hb, hsh]
      rw [hinit, length_flatMap_const _
            ((idx_axes zero v o0).length * (idx_axes zero v o1).length) _
            (fun x2 => length_flatMap_const _ (idx_axes zero v o0).length _
              (fun x1 => by simp)), h3, ← hp]
      simp [Nat.mul_assoc]
  -- end

/-- C1 witness: a concrete rank-2 distributed value of shape `[4, 1]`, whose
extent-1 dimension contributes the single coordinate 0, yields 2 * 1 index tuples. -/
def sample_vd : ValueDesc Nat where
  is_block := true
  is_shared := false
  shapes := [4, 1]
  axes_ext := fun _ => { contiguous := 2, values := [10, 20] }
  order_key := fun d => some d

theorem init_idx_spec_witness :
    (init_idx 0 sample_vd).length =
      ((List.range sample_vd.shapes.length).map
        (fun d => (idx_axes 0 sample_vd d).length)).prod ∧
    idx_axes 0 sample_vd 1 = [0] := by
  have h := (init_idx_spec 0 sample_vd).2.2 rfl rfl (Or.inr (Or.inl rfl))
  exact ⟨h.2, h.1 1 (by decide)⟩

end TritonGen
